import Mathlib

/-!
Shallow embedding of the streak/race computation engine of the habit
tracker (habit CRUD, streak calculator, race engine, forecast routine),
translated from the TypeScript source.

Modelling conventions:
* Calendar dates (`YYYY-MM-DD` strings in the source) are embedded as
  integers counting days; the source compares date strings
  lexicographically, which coincides with chronological (hence integer)
  order.  `formatDate`/`parseDate` round trips become the identity and
  `checkDate.setDate(checkDate.getDate() - 1)` becomes subtraction of 1.
* JavaScript numbers are embedded as rationals (`Rat`); all arithmetic
  performed by the engine on entry values (comparisons, sums, the
  regression quotient) is exact on the values the program stores.
* The ambient Dexie tables become explicit lists kept in primary-key
  (insertion) order; `add` appends, `update` maps over the list replacing
  the record with the matching id, and `first()` on an index whose ties
  are broken by primary key becomes `List.find?` on the list.
* `Array.prototype.sort` (a stable sort) is embedded as
  `List.insertionSort`, which is stable for the total preorders used here,
  hence computes the same list.
* The unbounded `while (true)` walk in `updateStreaks` is embedded as a
  fuel-indexed function returning `none` when the fuel runs out before the
  loop exits; statements about the walk quantify over the fuel.
-/

namespace HabitRacer

inductive HabitType where
  | boolean
  | quantifiable
deriving DecidableEq, Repr

inductive Direction where
  | maximize
  | minimize
deriving DecidableEq, Repr

/-- `frequency: 'daily' | 'weekly' | 'specific_days'`. -/
inductive Frequency where
  | daily
  | weekly
  | specific_days
deriving DecidableEq, Repr

/-- A habit definition; only the fields read by the streak/race engine are
kept (`goalValue`, `unit`, `metricType`, `name`, `emoji` and the timestamps
are display-only).  `specificDays` holds weekday numbers 0..6 and is
optional, as in the source. -/
structure Habit where
  type : HabitType
  direction : Direction
  frequency : Frequency
  specificDays : Option (List Nat)
deriving DecidableEq, Repr

/-- One recorded observation for a habit on a calendar date.  `notes` is
omitted (never read by the engine). -/
structure HabitEntry where
  id : Nat
  date : Int
  value : Rat
  createdAt : Nat
  updatedAt : Nat
  isAttempt : Bool
deriving DecidableEq, Repr

/-- A cached streak record (one row of the `streaks` table). -/
structure StreakRec where
  id : Nat
  startDate : Int
  endDate : Option Int
  length : Nat
  isActive : Bool
  isPersonalRecord : Bool
deriving DecidableEq, Repr

structure RacePosition where
  value : Rat
  date : Option Int
  isPersonalRecord : Bool
  isCurrent : Bool
  position : Nat
deriving DecidableEq, Repr

structure RaceData where
  currentValue : Rat
  currentPosition : Nat
  totalPositions : Nat
  positions : List RacePosition
  nextTarget : Option (Rat × Nat × Option Int)
  previousRecord : Option (Rat × Option Int)
deriving DecidableEq, Repr

/-- `parseDate(date).getDay()`: the weekday of a day number, as 0..6.
Which residue is Sunday is irrelevant to the engine. -/
def weekday (d : Int) : Nat := (d.emod 7).toNat

/-- `shouldHaveEntry(habit, date)` from the db helpers: `daily` and
`weekly` always require (well, allow) an entry; `specific_days` only on
the listed weekdays, falling back to `true` when `specificDays` is
absent. -/
def shouldHaveEntry (h : Habit) (d : Int) : Bool :=
  match h.frequency with
  | .daily => true
  | .specific_days =>
    match h.specificDays with
    | some days => days.contains (weekday d)
    | none => true
  | .weekly => true

/-- Comparator `(a, b) => a.date.localeCompare(b.date)`: sort ascending by
date. -/
def dateLe (a b : HabitEntry) : Prop := a.date ≤ b.date

/-- Comparator `(a, b) => b.createdAt - a.createdAt`: sort descending by
creation time. -/
def createdGe (a b : HabitEntry) : Prop := b.createdAt ≤ a.createdAt

/-- Comparator used for value-based racing: descending values for
`maximize` (`b.value - a.value`), ascending for `minimize`. -/
def entryOrder (dir : Direction) : HabitEntry → HabitEntry → Prop :=
  match dir with
  | .maximize => fun a b => b.value ≤ a.value
  | .minimize => fun a b => a.value ≤ b.value

instance : DecidableRel dateLe := fun a b => inferInstanceAs (Decidable (a.date ≤ b.date))

instance : DecidableRel createdGe := fun a b => inferInstanceAs (Decidable (b.createdAt ≤ a.createdAt))

instance (dir : Direction) : DecidableRel (entryOrder dir) := by
  cases dir <;> exact fun a b => inferInstanceAs (Decidable (_ ≤ _))

instance : IsTotal HabitEntry dateLe := ⟨fun a b => le_total a.date b.date⟩

instance : IsTrans HabitEntry dateLe := ⟨fun _ _ _ h1 h2 => le_trans h1 h2⟩

instance : IsTotal HabitEntry createdGe := ⟨fun a b => le_total b.createdAt a.createdAt⟩

instance : IsTrans HabitEntry createdGe := ⟨fun _ _ _ h1 h2 => le_trans h2 h1⟩

instance (dir : Direction) : IsTotal HabitEntry (entryOrder dir) := by
  cases dir <;> exact ⟨fun a b => le_total _ _⟩

instance (dir : Direction) : IsTrans HabitEntry (entryOrder dir) := by
  cases dir
  · exact ⟨fun _ _ _ h1 h2 => le_trans h2 h1⟩
  · exact ⟨fun _ _ _ h1 h2 => le_trans h1 h2⟩

/-- Sort order `(a, b) => b - a` for streak lengths: descending. -/
def natGe (a b : Nat) : Prop := b ≤ a

instance : DecidableRel natGe := fun a b => inferInstanceAs (Decidable (b ≤ a))

instance : IsTotal Nat natGe := ⟨fun a b => le_total b a⟩

instance : IsTrans Nat natGe := ⟨fun _ _ _ h1 h2 => le_trans h2 h1⟩

/-! ## Streak calculator (`updateStreaks`) -/

/-- The walk's completion test, line 195 of the source:
`entry && (habit.type === 'boolean' ? entry.value === 1 : entry.value > 0)`. -/
def entryCompleted (ht : HabitType) : Option HabitEntry → Bool
  | some e =>
    match ht with
    | .boolean => decide (e.value = 1)
    | .quantifiable => decide (0 < e.value)
  | none => false

/-- The backward day-by-day walk of `updateStreaks`, lines 176-212 of the
source, as a fuel-indexed loop.  State: the day under examination
(`checkDate`), the streak counter (`currentStreak`) and the streak start
(`streakStartDate`); `today` is `getTodayDate()`.  The source loop is
`while (true)`; `none` means the fuel ran out before the loop exited.
Branches, in source order: skip future dates; skip rest days
(`shouldHaveEntry` false); on completion increment, record the start
date, step one day back, and `break` when the counter exceeds 1000; on a
miss, `continue` if the examined day is `today` itself, otherwise
`break`. -/
def streakWalk (h : Habit) (sortedEntries : List HabitEntry) (today : Int) :
    Nat → Int → Nat → Int → Option (Nat × Int)
  | 0, _, _, _ => none
  | fuel + 1, checkDate, currentStreak, streakStartDate =>
    if today < checkDate then
      streakWalk h sortedEntries today fuel (checkDate - 1) currentStreak streakStartDate
    else if ¬ shouldHaveEntry h checkDate then
      streakWalk h sortedEntries today fuel (checkDate - 1) currentStreak streakStartDate
    else if entryCompleted h.type (sortedEntries.find? (fun e => e.date = checkDate)) then
      if 1000 < currentStreak + 1 then some (currentStreak + 1, checkDate)
      else streakWalk h sortedEntries today fuel (checkDate - 1) (currentStreak + 1) checkDate
    else if checkDate = today then
      streakWalk h sortedEntries today fuel (checkDate - 1) currentStreak streakStartDate
    else some (currentStreak, streakStartDate)

/-- `db.streaks.where('[habitId+isActive]').equals([habitId, 1]).first()`:
the first active streak record in primary-key order. -/
def activeStreak (store : List StreakRec) : Option StreakRec :=
  store.find? (·.isActive)

/-- `Math.max(0, ...allStreaks.map(s => s.length))`. -/
def longestRecorded (store : List StreakRec) : Nat :=
  store.foldl (fun m s => max m s.length) 0

/-- `db.streaks.update(existingActiveStreak.id, {startDate, length,
isPersonalRecord})` applied to one row: replace the row bearing the given
primary key. -/
def upsertActive (streakStartDate : Int) (currentStreak : Nat) (isPR : Bool)
    (aid : Nat) (s : StreakRec) : StreakRec :=
  if s.id = aid then
    { s with startDate := streakStartDate, length := currentStreak,
             isPersonalRecord := isPR }
  else s

/-- `db.streaks.update(existingActiveStreak.id, {endDate, isActive:
false})` applied to one row. -/
def deactivateRec (today : Int) (aid : Nat) (s : StreakRec) : StreakRec :=
  if s.id = aid then { s with endDate := some today, isActive := false } else s

/-- Lines 214-249 of `updateStreaks`: given the walk result
`(currentStreak, streakStartDate)`, upsert or deactivate the active streak
record.  `nextId` models `generateId()` for a freshly created record. -/
def applyStreakResult (today : Int) (currentStreak : Nat) (streakStartDate : Int)
    (store : List StreakRec) (nextId : Nat) : List StreakRec × Nat :=
  if 0 < currentStreak then
    match activeStreak store with
    | some a =>
      (store.map (upsertActive streakStartDate currentStreak
        (decide (longestRecorded store < currentStreak)) a.id), nextId)
    | none =>
      (store ++ [{ id := nextId, startDate := streakStartDate, endDate := none,
                   length := currentStreak, isActive := true,
                   isPersonalRecord := decide (longestRecorded store < currentStreak) }],
       nextId + 1)
  else
    match activeStreak store with
    | some a => (store.map (deactivateRec today a.id), nextId)
    | none => (store, nextId)

/-- `updateStreaks(habitId)` for one habit: no-op on an empty entry list,
otherwise run the walk from `today` with counter 0 and start `today` on
the date-sorted entries and apply the result to the streak store.  If the
walk does not finish within the fuel (the source loop would still be
running) the store is left untouched. -/
def updateStreaks (fuel : Nat) (h : Habit) (entries : List HabitEntry) (today : Int)
    (st : List StreakRec × Nat) : List StreakRec × Nat :=
  if entries.isEmpty then st
  else
    match streakWalk h (entries.insertionSort dateLe) today fuel today 0 today with
    | none => st
    | some (cs, sd) => applyStreakResult today cs sd st.1 st.2

/-- `getCurrentStreak(habitId)`: length of the active streak record, 0 when
none exists (`streak?.length || 0`). -/
def getCurrentStreak (store : List StreakRec) : Nat :=
  match activeStreak store with
  | some s => s.length
  | none => 0

def countActive (store : List StreakRec) : Nat := store.countP (·.isActive)

/-! ## Forecast (`estimateReachDate`) -/

/-- The index-accumulating pass of the regression loop: running sums
`(sumX, sumY, sumXY, sumX2)` of `i`, `entry.value`, `i * entry.value` and
`i * i` over the list, indices counting from the given start. -/
def regSums : Nat → List HabitEntry → Rat × Rat × Rat × Rat
  | _, [] => (0, 0, 0, 0)
  | i, e :: es =>
    let (sx, sy, sxy, sx2) := regSums (i + 1) es
    ((i : Rat) + sx, e.value + sy, (i : Rat) * e.value + sxy, (i : Rat) * i + sx2)

/-- `slope = (n*sumXY - sumX*sumY) / (n*sumX2 - sumX*sumX)` over the given
(chronologically sorted) entries, indexed 0..n-1. -/
def slopeOf (l : List HabitEntry) : Rat :=
  let n : Rat := l.length
  let (sx, sy, sxy, sx2) := regSums 0 l
  (n * sxy - sx * sy) / (n * sx2 - sx * sx)

/-- The trailing 30-day subset used by the forecast:
`entries.filter(e => parseDate(e.date) >= thirtyDaysAgo).sort(byDate)`,
with `new Date()` taken at local midnight of `today`. -/
def recentWindow (entries : List HabitEntry) (today : Int) : List HabitEntry :=
  (entries.filter (fun e => today - 30 ≤ e.date)).insertionSort dateLe

/-- The slope's sign favors the direction: strictly positive for
`maximize`, strictly negative for `minimize` (the source returns
`undefined` on `slope <= 0` resp. `slope >= 0`). -/
def slopeFavors (dir : Direction) (s : Rat) : Prop :=
  match dir with
  | .maximize => 0 < s
  | .minimize => s < 0

instance (dir : Direction) (s : Rat) : Decidable (slopeFavors dir s) := by
  cases dir <;> exact inferInstanceAs (Decidable (_ < _))

/-- `daysToTarget = Math.ceil(|targetValue - currentValue| / |slope|)`. -/
def daysToTarget (currentValue targetValue slope : Rat) : Int :=
  ⌈|targetValue - currentValue| / |slope|⌉

/-- `estimateReachDate(habitId, currentValue, targetValue, direction)`,
lines 422-487: `none` models the source's `undefined` ("unknown"
forecast); otherwise the returned date is `today + daysToTarget`. -/
def estimateReachDate (entries : List HabitEntry) (currentValue targetValue : Rat)
    (dir : Direction) (today : Int) : Option Int :=
  if entries.length < 7 then none
  else
    let recent := recentWindow entries today
    if recent.length < 7 then none
    else
      let slope := slopeOf recent
      if ¬ slopeFavors dir slope then none
      else
        let dailyImprovement := |slope|
        if dailyImprovement = 0 then none
        else
          let days := daysToTarget currentValue targetValue slope
          if 180 < days then none
          else some (today + days)

/-! ## Race engine (`calculateRaceData`) -/

/-- The boolean-habit scan (lines 290-297): walk the date-sorted entries,
increment a running counter on `value === 1` and reset it otherwise,
collecting every counter value reached. -/
def scanStreakLengths : Nat → List HabitEntry → List Nat
  | _, [] => []
  | tempStreak, e :: es =>
    if e.value = 1 then (tempStreak + 1) :: scanStreakLengths (tempStreak + 1) es
    else scanStreakLengths 0 es

/-- `streakArray.map((value, index) => ...)`: positions for the boolean
branch; `date` is the empty string in the source (`none` here), position 1
is the personal record, `isCurrent` marks the value equal to the live
current streak. -/
def boolPositions (currentStreak : Nat) : Nat → List Nat → List RacePosition
  | _, [] => []
  | i, v :: vs =>
    { value := (v : Rat), date := none, isPersonalRecord := decide (i = 0),
      isCurrent := decide (v = currentStreak), position := i + 1 }
      :: boolPositions currentStreak (i + 1) vs

/-- `raceEntries.map((entry, index) => ...)`: positions for the
quantifiable branch.  `prId?`/`curId?` are the ids of
`personalRecord = sortedByValue[0]` and of the most recent entry;
`entry.id === personalRecord?.id` is false when the option is `none`, as
the comparison with `undefined` is in the source. -/
def quantPositions (prId? curId? : Option Nat) : Nat → List HabitEntry → List RacePosition
  | _, [] => []
  | i, e :: es =>
    { value := e.value, date := some e.date,
      isPersonalRecord := decide (prId? = some e.id),
      isCurrent := decide (curId? = some e.id), position := i + 1 }
      :: quantPositions prId? curId? (i + 1) es

/-- Recursion for `dedupById`, tracking the ids already seen. -/
def dedupByIdAux : List Nat → List HabitEntry → List HabitEntry
  | _, [] => []
  | seen, e :: es =>
    if e.id ∈ seen then dedupByIdAux seen es
    else e :: dedupByIdAux (e.id :: seen) es

/-- `index === self.findIndex(e => e.id === entry.id)`: keep only the
first entry bearing each id. -/
def dedupById (l : List HabitEntry) : List HabitEntry := dedupByIdAux [] l

/-- The "would tie-or-beat" test of the current-position scan:
`currentValue >= positions[i].value` for `maximize`,
`<=` for `minimize`. -/
def dirBeats (dir : Direction) (currentValue v : Rat) : Prop :=
  match dir with
  | .maximize => v ≤ currentValue
  | .minimize => currentValue ≤ v

instance (dir : Direction) (c v : Rat) : Decidable (dirBeats dir c v) := by
  cases dir <;> exact inferInstanceAs (Decidable (_ ≤ _))

/-- Lines 359-382: the unclamped current position.  A position flagged
`isCurrent` wins directly; otherwise scan the displayed positions for the
first one the current value ties-or-beats, and fall back to
`positions.length + 1`; 0 when there are no positions at all. -/
def resolvePosition (dir : Direction) (currentValue : Rat)
    (positions : List RacePosition) : Nat :=
  match positions.find? (·.isCurrent) with
  | some p => p.position
  | none =>
    if positions.isEmpty then 0
    else
      match positions.find? (fun p => decide (dirBeats dir currentValue p.value)) with
      | some p => p.position
      | none => positions.length + 1

/-- Lines 359-419: shared tail of `calculateRaceData` — current-position
resolution, the clamp to `[1, totalPositions]` (0 when empty), the
personal-record lookup, the next-target block (which uses the *unclamped*
current position, as the source does) and assembly of the `RaceData`
record with `positions.slice(0, 10)`. -/
def finishRace (h : Habit) (entries : List HabitEntry) (currentValue : Rat)
    (positions : List RacePosition) (today : Int) : RaceData :=
  let currentPosition := resolvePosition h.direction currentValue positions
  let totalPositions := positions.length
  let validCurrentPosition := if 0 < totalPositions then min currentPosition totalPositions else 0
  let personalRecord? := positions.find? (·.isPersonalRecord)
  let nextTarget :=
    if 1 < currentPosition then
      match positions.find? (fun p => decide (p.position = currentPosition - 1)) with
      | some np =>
        some (np.value, np.position,
              estimateReachDate entries currentValue np.value h.direction today)
      | none => none
    else none
  { currentValue := currentValue,
    currentPosition := validCurrentPosition,
    totalPositions := totalPositions,
    positions := positions.take 10,
    nextTarget := nextTarget,
    previousRecord := personalRecord?.map (fun p => (p.value, p.date)) }

/-- `Math.ceil(totalSlots * 0.75)` on the integers 0..10 (exact in binary
floating point): `⌈3t/4⌉` as natural division. -/
def bestSlotCount (totalSlots : Nat) : Nat := (3 * totalSlots + 3) / 4

/-- Lines 324-346 of the quantifiable branch: curate at most 10 slots
mixing `bestSlots = ceil(0.75 * totalSlots)` best-by-value entries with
the remaining slots filled by most-recent-by-creation entries not already
chosen, de-duplicate by entry id keeping first occurrences, and re-sort
the union by value. -/
def quantRaceEntries (dir : Direction) (entries : List HabitEntry) : List HabitEntry :=
  let sortedByValue := entries.insertionSort (entryOrder dir)
  let sortedByDate := entries.insertionSort createdGe
  let totalSlots := min entries.length 10
  let bestSlots := bestSlotCount totalSlots
  let recentSlots := totalSlots - bestSlots
  let bestEntries := sortedByValue.take bestSlots
  let recentEntries :=
    (sortedByDate.filter (fun e => ¬ bestEntries.any (fun b => b.id = e.id))).take recentSlots
  (dedupById (bestEntries ++ recentEntries)).insertionSort (entryOrder dir)

/-- The pure core of `calculateRaceData` for an existing habit, taking the
habit, its entry list, the streak store (read through
`getCurrentStreak`) and `today` (read by the forecast). -/
def raceDataCore (h : Habit) (entries : List HabitEntry)
    (store : List StreakRec) (today : Int) : RaceData :=
  match h.type with
  | .boolean =>
    let currentStreak := getCurrentStreak store
    let sortedEntries := entries.insertionSort dateLe
    let streakArray :=
      ((scanStreakLengths 0 sortedEntries).dedup.insertionSort natGe).take 10
    let positions := boolPositions currentStreak 0 streakArray
    finishRace h entries (currentStreak : Rat) positions today
  | .quantifiable =>
    let sortedByValue := entries.insertionSort (entryOrder h.direction)
    let sortedByDate := entries.insertionSort createdGe
    let mostRecent? := sortedByDate.head?
    let currentValue :=
      match mostRecent? with
      | some e => e.value
      | none => 0
    let positions :=
      quantPositions (sortedByValue.head?.map (·.id)) (mostRecent?.map (·.id)) 0
        (quantRaceEntries h.direction entries)
    finishRace h entries currentValue positions today

/-- `calculateRaceData(habitId)`: throws `'Habit not found'` when the
habit lookup fails, otherwise computes the race; the guard is the only
`throw` in the function, so an existing habit always yields a result. -/
def calculateRaceData (h? : Option Habit) (entries : List HabitEntry)
    (store : List StreakRec) (today : Int) : Except String RaceData :=
  match h? with
  | none => .error "Habit not found"
  | some h => .ok (raceDataCore h entries store today)

/-! ## Entry mutations as a state machine (one habit) -/

/-- Projection of the store onto a single habit: its entries and streak
records in primary-key order, plus counters supplying fresh ids (the
source's `generateId()` yields strictly increasing primary keys) and a
logical clock for `Date.now()`. -/
structure St where
  entries : List HabitEntry
  streaks : List StreakRec
  nextEntryId : Nat
  nextStreakId : Nat
  now : Nat
deriving Repr

/-- `getEntry(habitId, date)`:
`db.entries.where('[habitId+date]').equals([habitId, date]).first()` —
the first entry for that date in primary-key order. -/
def getEntryF (entries : List HabitEntry) (d : Int) : Option HabitEntry :=
  entries.find? (fun e => e.date = d)

/-- `createEntry(habitId, date, value, notes?, isAttempt?)`, lines 69-124:
attempt entries are always added fresh; otherwise an existing non-attempt
entry for the date is updated in place (with *no* streak recompute, as in
the source), and in every other case a fresh entry is added.  Adding an
entry triggers `updateStreaks`. -/
def createEntryF (fuel : Nat) (h : Habit) (today : Int) (st : St)
    (date : Int) (value : Rat) (isAttempt : Bool) : St :=
  let fresh : HabitEntry :=
    { id := st.nextEntryId, date := date, value := value,
      createdAt := st.now, updatedAt := st.now, isAttempt := isAttempt }
  if isAttempt then
    let entries' := st.entries ++ [fresh]
    let upd := updateStreaks fuel h entries' today (st.streaks, st.nextStreakId)
    { st with entries := entries', streaks := upd.1, nextStreakId := upd.2,
              nextEntryId := st.nextEntryId + 1, now := st.now + 1 }
  else
    match getEntryF st.entries date with
    | some existing =>
      if existing.isAttempt = false then
        { st with
            entries := st.entries.map (fun e =>
              if e.id = existing.id then { e with value := value, updatedAt := st.now }
              else e),
            now := st.now + 1 }
      else
        let entries' := st.entries ++ [fresh]
        let upd := updateStreaks fuel h entries' today (st.streaks, st.nextStreakId)
        { st with entries := entries', streaks := upd.1, nextStreakId := upd.2,
                  nextEntryId := st.nextEntryId + 1, now := st.now + 1 }
    | none =>
      let entries' := st.entries ++ [fresh]
      let upd := updateStreaks fuel h entries' today (st.streaks, st.nextStreakId)
      { st with entries := entries', streaks := upd.1, nextStreakId := upd.2,
                nextEntryId := st.nextEntryId + 1, now := st.now + 1 }

/-- `deleteEntry(habitId, date)`, lines 133-139: look the entry up by
date, and only when found, delete it (by primary key) and recompute the
streaks. -/
def deleteEntryF (fuel : Nat) (h : Habit) (today : Int) (st : St) (date : Int) : St :=
  match getEntryF st.entries date with
  | some entry =>
    let entries' := st.entries.filter (fun e => e.id ≠ entry.id)
    let upd := updateStreaks fuel h entries' today (st.streaks, st.nextStreakId)
    { st with entries := entries', streaks := upd.1, nextStreakId := upd.2,
              now := st.now + 1 }
  | none => { st with now := st.now + 1 }

/-- `quickCheckIn(habitId)`, lines 575-583: toggle —
`newValue = existing?.value === 1 ? 0 : 1` based on the first entry found
for today, then `createEntry(habitId, today, newValue)`. -/
def quickCheckInF (fuel : Nat) (h : Habit) (today : Int) (st : St) : St :=
  let existing := getEntryF st.entries today
  let newValue : Rat :=
    match existing with
    | some e => if e.value = 1 then 0 else 1
    | none => 1
  createEntryF fuel h today st today newValue false

/-- One UI-triggered operation on the habit's slice of the store. -/
inductive Op where
  | create (date : Int) (value : Rat) (isAttempt : Bool)
  | delete (date : Int)
  | recompute
deriving Repr

def stepOp (fuel : Nat) (h : Habit) (today : Int) (st : St) : Op → St
  | .create date value isAttempt => createEntryF fuel h today st date value isAttempt
  | .delete date => deleteEntryF fuel h today st date
  | .recompute =>
    let upd := updateStreaks fuel h st.entries today (st.streaks, st.nextStreakId)
    { st with streaks := upd.1, nextStreakId := upd.2, now := st.now + 1 }

def runOps (fuel : Nat) (h : Habit) (today : Int) (st : St) : List Op → St
  | [] => st
  | op :: ops => runOps fuel h today (stepOp fuel h today st op) ops

/-! ## Helper lemmas -/

theorem boolPositions_position_pos (cs : Nat) :
    ∀ (i : Nat) (l : List Nat) (p : RacePosition),
      p ∈ boolPositions cs i l → i + 1 ≤ p.position := by
  intro i l
  induction l generalizing i with
  | nil => intro p hp; simp [boolPositions] at hp
  | cons v vs ih =>
    intro p hp
    simp only [boolPositions, List.mem_cons] at hp
    rcases hp with rfl | hp
    · simp
    · exact le_trans (Nat.le_succ _) (ih (i + 1) p hp)

theorem quantPositions_position_pos (prId? curId? : Option Nat) :
    ∀ (i : Nat) (l : List HabitEntry) (p : RacePosition),
      p ∈ quantPositions prId? curId? i l → i + 1 ≤ p.position := by
  intro i l
  induction l generalizing i with
  | nil => intro p hp; simp [quantPositions] at hp
  | cons e es ih =>
    intro p hp
    simp only [quantPositions, List.mem_cons] at hp
    rcases hp with rfl | hp
    · simp
    · exact le_trans (Nat.le_succ _) (ih (i + 1) p hp)

theorem resolvePosition_pos (dir : Direction) (cv : Rat) (positions : List RacePosition)
    (hpos : ∀ p ∈ positions, 1 ≤ p.position) (hne : positions ≠ []) :
    1 ≤ resolvePosition dir cv positions := by
  unfold resolvePosition
  cases hfind : positions.find? (·.isCurrent) with
  | some p => exact hpos p (List.mem_of_find?_eq_some hfind)
  | none =>
    rw [if_neg (by simp [List.isEmpty_iff, hne])]
    cases hfind2 : positions.find? (fun p => decide (dirBeats dir cv p.value)) with
    | some p => exact hpos p (List.mem_of_find?_eq_some hfind2)
    | none => simp

theorem finishRace_position_bounds (h : Habit) (entries : List HabitEntry) (cv : Rat)
    (positions : List RacePosition) (today : Int)
    (hpos : ∀ p ∈ positions, 1 ≤ p.position) :
    let rd := finishRace h entries cv positions today
    (0 < rd.totalPositions →
      1 ≤ rd.currentPosition ∧ rd.currentPosition ≤ rd.totalPositions) ∧
    (rd.totalPositions = 0 → rd.currentPosition = 0) := by
  intro rd
  have htot : rd.totalPositions = positions.length := rfl
  have hcur : rd.currentPosition =
      if 0 < positions.length then
        min (resolvePosition h.direction cv positions) positions.length
      else 0 := rfl
  constructor
  · intro hlen
    rw [htot] at hlen
    have hne : positions ≠ [] := by
      intro hnil; rw [hnil] at hlen; simp at hlen
    rw [hcur, if_pos hlen, htot]
    exact ⟨le_min (resolvePosition_pos h.direction cv positions hpos hne) hlen,
           min_le_right _ _⟩
  · intro hlen
    rw [htot] at hlen
    rw [hcur, hlen]
    simp

/-- **C1**: for every habit, entry history, streak store and current date,
the `RaceData` returned by `calculateRaceData` has `currentPosition` in
`[1, totalPositions]` when `totalPositions > 0`, and `currentPosition = 0`
when `totalPositions = 0`. -/
theorem c1_race_position_bounds (h : Habit) (entries : List HabitEntry)
    (store : List StreakRec) (today : Int) (rd : RaceData)
    (hok : calculateRaceData (some h) entries store today = .ok rd) :
    (0 < rd.totalPositions →
      1 ≤ rd.currentPosition ∧ rd.currentPosition ≤ rd.totalPositions) ∧
    (rd.totalPositions = 0 → rd.currentPosition = 0) := by
  have hrd : rd = raceDataCore h entries store today := by
    simpa [calculateRaceData] using hok.symm
  subst hrd
  unfold raceDataCore
  cases h.type with
  | boolean =>
    exact finishRace_position_bounds h entries _ _ today
      (fun p hp => boolPositions_position_pos _ 0 _ p hp)
  | quantifiable =>
    exact finishRace_position_bounds h entries _ _ today
      (fun p hp => quantPositions_position_pos _ _ 0 _ p hp)

/-- Witness for C1 at a concrete input. -/
theorem c1_race_position_bounds_witness :
    let h : Habit := ⟨.boolean, .maximize, .daily, none⟩
    let entries : List HabitEntry := [⟨0, 0, 1, 0, 0, false⟩]
    let rd := raceDataCore h entries [] 0
    (0 < rd.totalPositions →
      1 ≤ rd.currentPosition ∧ rd.currentPosition ≤ rd.totalPositions) ∧
    (rd.totalPositions = 0 → rd.currentPosition = 0) :=
  c1_race_position_bounds ⟨.boolean, .maximize, .daily, none⟩
    [⟨0, 0, 1, 0, 0, false⟩] [] 0 _ rfl

/-- **C5**: `calculateRaceData` fails with `'Habit not found'` exactly when
the habit lookup fails; for an existing habit it always produces a result
(the guard is the only throwing statement), and an empty entry list yields
an empty race: `totalPositions = 0` and `currentPosition = 0`. -/
theorem c5_not_found_and_empty_race :
    (∀ (entries : List HabitEntry) (store : List StreakRec) (today : Int),
      calculateRaceData none entries store today = .error "Habit not found") ∧
    (∀ (h : Habit) (entries : List HabitEntry) (store : List StreakRec) (today : Int),
      ∃ rd, calculateRaceData (some h) entries store today = .ok rd) ∧
    (∀ (h : Habit) (store : List StreakRec) (today : Int),
      ∃ rd, calculateRaceData (some h) [] store today = .ok rd ∧
        rd.totalPositions = 0 ∧ rd.currentPosition = 0) := by
  refine ⟨fun _ _ _ => rfl, fun h entries store today => ⟨_, rfl⟩, ?_⟩
  intro h store today
  refine ⟨raceDataCore h [] store today, rfl, ?_, ?_⟩
  · rcases h with ⟨ht, dir, fr, sd⟩
    cases ht <;> rfl
  · rcases h with ⟨ht, dir, fr, sd⟩
    cases ht <;> rfl

/-- The habit that defeats the walk's safety limit: `specific_days` with
an empty `specificDays` list, so `shouldHaveEntry` is false on every day
and the rest-day `continue` (which bypasses the `currentStreak > 1000`
check) fires forever. -/
def emptyScheduleHabit : Habit := ⟨.boolean, .maximize, .specific_days, some []⟩

theorem streakWalk_emptySchedule_none (entries : List HabitEntry) (today : Int) :
    ∀ (fuel : Nat) (checkDate : Int) (streak : Nat) (start : Int),
      checkDate ≤ today →
      streakWalk emptyScheduleHabit entries today fuel checkDate streak start = none := by
  intro fuel
  induction fuel with
  | zero => intro _ _ _ _; rfl
  | succ n ih =>
    intro checkDate streak start hle
    unfold streakWalk
    rw [if_neg (by omega), if_pos (by simp [shouldHaveEntry, emptyScheduleHabit])]
    exact ih (checkDate - 1) streak start (by omega)

/-- **C4** (code bug): the claim says the backward walk aborts after at
most 1000 iterations and thus terminates on any `specificDays` schedule.
In the source the safety check `currentStreak > 1000` sits after the
completion branch only, and the rest-day `continue` skips it, so on a
habit whose `specificDays` contains no days (every day a rest day) the
loop never exits: for this habit with one entry, the walk started at
`today` is still running after any number of iterations. -/
theorem c4_walk_diverges_on_empty_schedule (fuel : Nat) :
    streakWalk emptyScheduleHabit [⟨0, 0, 1, 0, 0, false⟩] 0 fuel 0 0 0 = none :=
  streakWalk_emptySchedule_none _ 0 fuel 0 0 0 le_rfl

/-- One unfolding of the walk, for stepwise rewriting. -/
theorem streakWalk_succ (h : Habit) (sortedEntries : List HabitEntry) (today : Int)
    (fuel : Nat) (checkDate : Int) (currentStreak : Nat) (streakStartDate : Int) :
    streakWalk h sortedEntries today (fuel + 1) checkDate currentStreak streakStartDate =
      if today < checkDate then
        streakWalk h sortedEntries today fuel (checkDate - 1) currentStreak streakStartDate
      else if ¬ shouldHaveEntry h checkDate then
        streakWalk h sortedEntries today fuel (checkDate - 1) currentStreak streakStartDate
      else if entryCompleted h.type (sortedEntries.find? (fun e => e.date = checkDate)) then
        if 1000 < currentStreak + 1 then some (currentStreak + 1, checkDate)
        else streakWalk h sortedEntries today fuel (checkDate - 1) (currentStreak + 1) checkDate
      else if checkDate = today then
        streakWalk h sortedEntries today fuel (checkDate - 1) currentStreak streakStartDate
      else some (currentStreak, streakStartDate) := rfl

/-- The daily boolean habit of the C3 scenario (direction and the unused
`specificDays` field arbitrary). -/
def c3Habit (dir : Direction) (sd? : Option (List Nat)) : Habit :=
  ⟨.boolean, dir, .daily, sd?⟩

/-- The C3 entry history: completed entries for `D-3`, `D-2`, `D-1` and
nothing for today `D` (ids and timestamps arbitrary). -/
def c3Entries (D : Int) (i1 i2 i3 c1 c2 c3 u1 u2 u3 : Nat) : List HabitEntry :=
  [⟨i1, D - 3, 1, c1, u1, false⟩, ⟨i2, D - 2, 1, c2, u2, false⟩,
   ⟨i3, D - 1, 1, c3, u3, false⟩]

/-- **C3**: a daily boolean habit completed on the three consecutive days
`D-3`, `D-2`, `D-1` and with no entry for today `D` gets
`currentStreak = 3`: the walk skips the empty today without breaking, and
`updateStreaks` records an active streak of length 3 starting at `D-3`. -/
theorem c3_empty_today_streak_three (dir : Direction) (sd? : Option (List Nat)) (D : Int)
    (i1 i2 i3 c1 c2 c3 u1 u2 u3 nid fuel : Nat) :
    streakWalk (c3Habit dir sd?) (c3Entries D i1 i2 i3 c1 c2 c3 u1 u2 u3) D
        (fuel + 5) D 0 D = some (3, D - 3) ∧
    updateStreaks (fuel + 5) (c3Habit dir sd?) (c3Entries D i1 i2 i3 c1 c2 c3 u1 u2 u3) D
        ([], nid) = ([⟨nid, D - 3, none, 3, true, true⟩], nid + 1) := by
  set h := c3Habit dir sd? with hh
  set entries := c3Entries D i1 i2 i3 c1 c2 c3 u1 u2 u3 with he
  have hshould : ∀ d : Int, ¬ ¬ (shouldHaveEntry h d = true) := by
    intro d
    simp [shouldHaveEntry, hh, c3Habit]
  have hsorted : entries.insertionSort dateLe = entries := by
    refine List.Sorted.insertionSort_eq ?_
    rw [he]
    unfold c3Entries
    refine List.sorted_cons.2 ⟨?_, List.sorted_cons.2 ⟨?_, List.sorted_singleton _⟩⟩
    · intro b hb
      simp only [List.mem_cons, List.mem_singleton, List.not_mem_nil, or_false] at hb
      rcases hb with rfl | rfl <;> simp only [dateLe] <;> omega
    · intro b hb
      simp only [List.mem_singleton] at hb
      subst hb
      simp only [dateLe]
      omega
  have f0 : entries.find? (fun e => decide (e.date = D)) = none := by
    rw [he]
    unfold c3Entries
    rw [List.find?_cons_of_neg _ (by simp only [decide_eq_true_eq]; omega),
        List.find?_cons_of_neg _ (by simp only [decide_eq_true_eq]; omega),
        List.find?_cons_of_neg _ (by simp only [decide_eq_true_eq]; omega)]
    rfl
  have f4 : entries.find? (fun e => decide (e.date = D - 4)) = none := by
    rw [he]
    unfold c3Entries
    rw [List.find?_cons_of_neg _ (by simp only [decide_eq_true_eq]; omega),
        List.find?_cons_of_neg _ (by simp only [decide_eq_true_eq]; omega),
        List.find?_cons_of_neg _ (by simp only [decide_eq_true_eq]; omega)]
    rfl
  have f1 : entries.find? (fun e => decide (e.date = D - 1)) =
      some ⟨i3, D - 1, 1, c3, u3, false⟩ := by
    rw [he]
    unfold c3Entries
    rw [List.find?_cons_of_neg _ (by simp only [decide_eq_true_eq]; omega),
        List.find?_cons_of_neg _ (by simp only [decide_eq_true_eq]; omega),
        List.find?_cons_of_pos _ (by simp)]
  have f2 : entries.find? (fun e => decide (e.date = D - 2)) =
      some ⟨i2, D - 2, 1, c2, u2, false⟩ := by
    rw [he]
    unfold c3Entries
    rw [List.find?_cons_of_neg _ (by simp only [decide_eq_true_eq]; omega),
        List.find?_cons_of_pos _ (by simp)]
  have f3 : entries.find? (fun e => decide (e.date = D - 3)) =
      some ⟨i1, D - 3, 1, c1, u1, false⟩ := by
    rw [he]
    unfold c3Entries
    rw [List.find?_cons_of_pos _ (by simp)]
  have hbool : h.type = HabitType.boolean := rfl
  have hwalk : streakWalk h entries D (fuel + 5) D 0 D = some (3, D - 3) := by
    have e5 : fuel + 5 = ((((fuel + 1) + 1) + 1) + 1) + 1 := by omega
    rw [e5]
    rw [streakWalk_succ, if_neg (show ¬ D < D by omega), if_neg (hshould D), f0,
        if_neg (show ¬ entryCompleted h.type none = true by simp [entryCompleted]),
        if_pos (show D = D from rfl)]
    rw [streakWalk_succ, if_neg (show ¬ D < D - 1 by omega), if_neg (hshould (D - 1)), f1,
        hbool,
        if_pos (show entryCompleted HabitType.boolean
          (some ⟨i3, D - 1, 1, c3, u3, false⟩) = true by simp [entryCompleted]),
        if_neg (show ¬ 1000 < 0 + 1 by omega)]
    rw [streakWalk_succ, if_neg (show ¬ D < D - 1 - 1 by omega), if_neg (hshould _),
        show D - 1 - 1 = D - 2 by omega, f2, hbool,
        if_pos (show entryCompleted HabitType.boolean
          (some ⟨i2, D - 2, 1, c2, u2, false⟩) = true by simp [entryCompleted]),
        if_neg (show ¬ 1000 < 0 + 1 + 1 by omega)]
    rw [streakWalk_succ, if_neg (show ¬ D < D - 2 - 1 by omega), if_neg (hshould _),
        show D - 2 - 1 = D - 3 by omega, f3, hbool,
        if_pos (show entryCompleted HabitType.boolean
          (some ⟨i1, D - 3, 1, c1, u1, false⟩) = true by simp [entryCompleted]),
        if_neg (show ¬ 1000 < 0 + 1 + 1 + 1 by omega)]
    rw [streakWalk_succ, if_neg (show ¬ D < D - 3 - 1 by omega), if_neg (hshould _),
        show D - 3 - 1 = D - 4 by omega, f4, hbool,
        if_neg (show ¬ entryCompleted HabitType.boolean none = true by simp [entryCompleted]),
        if_neg (show ¬ D - 4 = D by omega)]
  refine ⟨hwalk, ?_⟩
  unfold updateStreaks
  rw [if_neg (by rw [he]; unfold c3Entries; simp), hsorted, hwalk]
  rfl

/-- The concrete habit and entry set of the C2 scenario: a daily boolean
habit with one completed entry for today and no prior streak records. -/
def c2Habit : Habit := ⟨.boolean, .maximize, .daily, none⟩

def c2Entries : List HabitEntry := [⟨0, 0, 1, 0, 0, false⟩]

/-- **C2** (counterexample): calling `updateStreaks` twice with unchanged
entries does *not* leave the active streak record identical.  The first
call records a length-1 streak with `isPersonalRecord = true`; the second
call recomputes `isPersonalRecord` against a longest-ever that now
includes that very record (`1 > 1` is false) and overwrites the flag. -/
theorem c2_counterexample :
    let st1 := updateStreaks 50 c2Habit c2Entries 0 ([], 0)
    let st2 := updateStreaks 50 c2Habit c2Entries 0 st1
    (activeStreak st1.1).map (·.isPersonalRecord) = some true ∧
    (activeStreak st2.1).map (·.isPersonalRecord) = some false ∧
    activeStreak st2.1 ≠ activeStreak st1.1 := by decide

/-! ## Streak store lemmas -/

theorem find?_append_none {α : Type} {p : α → Bool} {l : List α}
    (h : l.find? p = none) (l' : List α) : (l ++ l').find? p = l'.find? p := by
  rw [List.find?_append, h, Option.none_or]

theorem find?_map_replace {p : StreakRec → Bool} {l : List StreakRec} {a : StreakRec}
    (f : StreakRec → StreakRec)
    (hfind : l.find? p = some a)
    (hnodup : (l.map (·.id)).Nodup)
    (hfother : ∀ x, x.id ≠ a.id → f x = x)
    (hpa : p (f a) = true) :
    (l.map f).find? p = some (f a) := by
  induction l with
  | nil => simp at hfind
  | cons x xs ih =>
    rw [List.map_cons]
    by_cases hx : p x = true
    · rw [List.find?_cons_of_pos _ hx] at hfind
      injection hfind with hax
      subst hax
      exact List.find?_cons_of_pos _ hpa
    · rw [List.find?_cons_of_neg _ hx] at hfind
      have hmem : a ∈ xs := List.mem_of_find?_eq_some hfind
      simp only [List.map_cons, List.nodup_cons] at hnodup
      have hxid : x.id ≠ a.id := by
        intro hcon
        exact hnodup.1 (hcon ▸ List.mem_map_of_mem (·.id) hmem)
      rw [hfother x hxid, List.find?_cons_of_neg _ hx]
      exact ih hfind hnodup.2

theorem find?_map_deactivate {p : StreakRec → Bool} {l : List StreakRec} {a : StreakRec}
    (f : StreakRec → StreakRec)
    (hfind : l.find? p = some a)
    (hcount : l.countP p ≤ 1)
    (hnodup : (l.map (·.id)).Nodup)
    (hfother : ∀ x, x.id ≠ a.id → f x = x)
    (hpa : p (f a) = false) :
    (l.map f).find? p = none := by
  induction l with
  | nil => simp at hfind
  | cons x xs ih =>
    rw [List.map_cons]
    by_cases hx : p x = true
    · rw [List.find?_cons_of_pos _ hx] at hfind
      injection hfind with hax
      subst hax
      rw [List.find?_cons_of_neg _ (by simp [hpa])]
      rw [List.countP_cons_of_pos _ _ hx] at hcount
      have h0 : xs.countP p = 0 := by omega
      rw [List.find?_eq_none]
      intro y hy
      obtain ⟨z, hz, rfl⟩ := List.mem_map.1 hy
      simp only [List.map_cons, List.nodup_cons] at hnodup
      have hzx : z.id ≠ x.id := by
        intro hcon
        exact hnodup.1 (hcon ▸ List.mem_map_of_mem (·.id) hz)
      rw [hfother z hzx]
      exact List.countP_eq_zero.1 h0 z hz
    · rw [List.find?_cons_of_neg _ hx] at hfind
      have hmem : a ∈ xs := List.mem_of_find?_eq_some hfind
      simp only [List.map_cons, List.nodup_cons] at hnodup
      have hxid : x.id ≠ a.id := by
        intro hcon
        exact hnodup.1 (hcon ▸ List.mem_map_of_mem (·.id) hmem)
      rw [hfother x hxid, List.find?_cons_of_neg _ hx]
      rw [List.countP_cons_of_neg _ _ hx] at hcount
      exact ih hfind hcount hnodup.2

theorem foldl_max_ge_acc (l : List StreakRec) :
    ∀ acc : Nat, acc ≤ l.foldl (fun m s => max m s.length) acc := by
  induction l with
  | nil => intro acc; exact le_rfl
  | cons x xs ih =>
    intro acc
    exact le_trans (le_max_left acc x.length) (ih (max acc x.length))

theorem mem_le_foldl_max (l : List StreakRec) :
    ∀ (acc : Nat) (s : StreakRec), s ∈ l → s.length ≤ l.foldl (fun m s => max m s.length) acc := by
  induction l with
  | nil => intro _ s hs; cases hs
  | cons x xs ih =>
    intro acc s hs
    rcases List.mem_cons.1 hs with rfl | hs
    · exact le_trans (le_max_right acc s.length) (foldl_max_ge_acc xs _)
    · exact ih (max acc x.length) s hs

theorem mem_le_longestRecorded {l : List StreakRec} {s : StreakRec} (hs : s ∈ l) :
    s.length ≤ longestRecorded l :=
  mem_le_foldl_max l 0 s hs

/-- Well-formedness of a habit's streak store: distinct primary keys, at
most one active record, all ids below the fresh-id counter. -/
def StoreOk (store : List StreakRec) (nid : Nat) : Prop :=
  (store.map (·.id)).Nodup ∧ countActive store ≤ 1 ∧ ∀ r ∈ store, r.id < nid

theorem upsertActive_id (sd : Int) (cs : Nat) (pr : Bool) (aid : Nat) (s : StreakRec) :
    (upsertActive sd cs pr aid s).id = s.id := by
  unfold upsertActive
  by_cases hx : s.id = aid <;> simp [hx]

theorem upsertActive_isActive (sd : Int) (cs : Nat) (pr : Bool) (aid : Nat) (s : StreakRec) :
    (upsertActive sd cs pr aid s).isActive = s.isActive := by
  unfold upsertActive
  by_cases hx : s.id = aid <;> simp [hx]

theorem upsertActive_of_ne (sd : Int) (cs : Nat) (pr : Bool) (aid : Nat) (s : StreakRec)
    (h : s.id ≠ aid) : upsertActive sd cs pr aid s = s :=
  if_neg h

theorem upsertActive_self (sd : Int) (cs : Nat) (pr : Bool) (a : StreakRec) :
    upsertActive sd cs pr a.id a =
      { a with startDate := sd, length := cs, isPersonalRecord := pr } :=
  if_pos rfl

theorem deactivateRec_of_ne (today : Int) (aid : Nat) (s : StreakRec)
    (h : s.id ≠ aid) : deactivateRec today aid s = s :=
  if_neg h

theorem deactivateRec_self_inactive (today : Int) (a : StreakRec) :
    (deactivateRec today a.id a).isActive = false := by
  unfold deactivateRec
  rw [if_pos rfl]

theorem applyStreakResult_pos_spec (today : Int) (cs : Nat) (sd : Int)
    (store : List StreakRec) (nid : Nat) (hcs : 0 < cs)
    (hnodup : (store.map (·.id)).Nodup)
    (hfresh : ∀ r ∈ store, r.id < nid) :
    ∃ a2,
      activeStreak (applyStreakResult today cs sd store nid).1 = some a2 ∧
      a2.startDate = sd ∧ a2.length = cs ∧ a2.isActive = true ∧
      a2.isPersonalRecord = decide (longestRecorded store < cs) ∧
      a2 ∈ (applyStreakResult today cs sd store nid).1 ∧
      (((applyStreakResult today cs sd store nid).1).map (·.id)).Nodup ∧
      (∀ r ∈ (applyStreakResult today cs sd store nid).1,
        r.id < (applyStreakResult today cs sd store nid).2) ∧
      (∀ a, activeStreak store = some a →
        a2 = { a with
                 startDate := sd,
                 length := cs,
                 isPersonalRecord := decide (longestRecorded store < cs) }) := by
  unfold applyStreakResult
  rw [if_pos hcs]
  cases hfind : activeStreak store with
  | none =>
    simp only
    refine ⟨{ id := nid, startDate := sd, endDate := none, length := cs,
              isActive := true,
              isPersonalRecord := decide (longestRecorded store < cs) },
            ?_, rfl, rfl, rfl, rfl, ?_, ?_, ?_, ?_⟩
    · unfold activeStreak at hfind ⊢
      rw [find?_append_none hfind]
      rfl
    · exact List.mem_append_right _ (List.mem_singleton.2 rfl)
    · rw [List.map_append]
      refine List.nodup_append.2 ⟨hnodup, List.nodup_singleton _, ?_⟩
      intro i hi hi'
      obtain ⟨r, hr, rfl⟩ := List.mem_map.1 hi
      simp only [List.map_cons, List.map_nil, List.mem_singleton] at hi'
      exact absurd (hi' ▸ hfresh r hr) (lt_irrefl nid)
    · intro r hr
      rcases List.mem_append.1 hr with hr | hr
      · exact lt_trans (hfresh r hr) (Nat.lt_succ_self nid)
      · simp only [List.mem_singleton] at hr
        subst hr
        exact Nat.lt_succ_self nid
    · intro a ha
      exact Option.noConfusion ha
  | some a =>
    simp only
    have hpa : a.isActive = true := List.find?_some hfind
    have hmain := find?_map_replace (p := (·.isActive))
      (upsertActive sd cs (decide (longestRecorded store < cs)) a.id)
      hfind hnodup (upsertActive_of_ne sd cs _ a.id)
      (by show (upsertActive sd cs (decide (longestRecorded store < cs)) a.id a).isActive = true
          rw [upsertActive_isActive]
          exact hpa)
    rw [upsertActive_self] at hmain
    have hids : (store.map (upsertActive sd cs (decide (longestRecorded store < cs)) a.id)).map
        (·.id) = store.map (·.id) := by
      rw [List.map_map]
      exact List.map_congr_left (fun x _ => upsertActive_id sd cs _ a.id x)
    refine ⟨_, hmain, rfl, rfl, by simp [hpa], rfl, ?_, ?_, ?_, ?_⟩
    · rw [← upsertActive_self sd cs (decide (longestRecorded store < cs)) a]
      exact List.mem_map_of_mem _ (List.mem_of_find?_eq_some hfind)
    · rw [hids]; exact hnodup
    · intro r hr
      obtain ⟨z, hz, rfl⟩ := List.mem_map.1 hr
      rw [upsertActive_id]
      exact hfresh z hz
    · intro a' ha'
      injection ha' with haa
      subst haa
      rfl

theorem applyStreakResult_zero_none (today : Int) (sd : Int)
    (store : List StreakRec) (nid : Nat)
    (hnodup : (store.map (·.id)).Nodup)
    (hcount : countActive store ≤ 1) :
    activeStreak (applyStreakResult today 0 sd store nid).1 = none := by
  unfold applyStreakResult
  rw [if_neg (lt_irrefl 0)]
  cases hfind : activeStreak store with
  | none => exact hfind
  | some a =>
    simp only
    exact find?_map_deactivate (deactivateRec today a.id)
      hfind hcount hnodup (deactivateRec_of_ne today a.id)
      (deactivateRec_self_inactive today a)

theorem applyStreakResult_zero_of_no_active (today : Int) (sd : Int)
    (store : List StreakRec) (nid : Nat)
    (h : activeStreak store = none) :
    applyStreakResult today 0 sd store nid = (store, nid) := by
  unfold applyStreakResult
  rw [if_neg (lt_irrefl 0), h]

/-- **C2** (amended): with unchanged entries, a second `updateStreaks`
call keeps the active record's `startDate`, `length` and `isActive`
identical but recomputes `isPersonalRecord` against a longest-ever that
now includes the first call's own record, so after the second call the
flag is always `false`; the record is fully identical exactly when the
first call had already set `isPersonalRecord = false` (in particular when
the current streak is 0, where both calls agree completely). -/
theorem c2_amended_second_call (h : Habit) (entries : List HabitEntry) (today : Int)
    (store : List StreakRec) (nid fuel cs : Nat) (sd : Int)
    (hok : StoreOk store nid)
    (hwalk : streakWalk h (entries.insertionSort dateLe) today fuel today 0 today
      = some (cs, sd))
    (hne : entries ≠ []) :
    (0 < cs → ∃ a1 a2,
      activeStreak (updateStreaks fuel h entries today (store, nid)).1 = some a1 ∧
      activeStreak (updateStreaks fuel h entries today
        (updateStreaks fuel h entries today (store, nid))).1 = some a2 ∧
      a2.startDate = a1.startDate ∧ a2.length = a1.length ∧ a1.length = cs ∧
      a2.isActive = a1.isActive ∧ a2.isPersonalRecord = false ∧
      (a1.isPersonalRecord = false → a2 = a1)) ∧
    (cs = 0 → updateStreaks fuel h entries today
        (updateStreaks fuel h entries today (store, nid))
      = updateStreaks fuel h entries today (store, nid)) := by
  obtain ⟨hnodup, hcount, hfresh⟩ := hok
  have hemp : entries.isEmpty = false := by
    simp [List.isEmpty_iff, hne]
  have hstep : ∀ st : List StreakRec × Nat,
      updateStreaks fuel h entries today st = applyStreakResult today cs sd st.1 st.2 := by
    intro st
    unfold updateStreaks
    rw [hemp, hwalk]
    simp
  constructor
  · intro hcs
    obtain ⟨a1, ha1, h1sd, h1len, h1act, h1pr, h1mem, h1nodup, h1fresh, -⟩ :=
      applyStreakResult_pos_spec today cs sd store nid hcs hnodup hfresh
    obtain ⟨a2, ha2, h2sd, h2len, h2act, h2pr, -, -, -, h2upd⟩ :=
      applyStreakResult_pos_spec today cs sd
        (applyStreakResult today cs sd store nid).1
        (applyStreakResult today cs sd store nid).2 hcs h1nodup h1fresh
    have hle : cs ≤ longestRecorded (applyStreakResult today cs sd store nid).1 := by
      have := mem_le_longestRecorded h1mem
      rw [h1len] at this
      exact this
    have hprfalse : a2.isPersonalRecord = false := by
      rw [h2pr, decide_eq_false_iff_not]
      omega
    refine ⟨a1, a2, by rw [hstep]; exact ha1, by rw [hstep, hstep]; exact ha2,
      by rw [h2sd, h1sd], by rw [h2len, h1len], h1len,
      by rw [h2act, h1act], hprfalse, ?_⟩
    intro h1prf
    have hupd := h2upd a1 ha1
    rw [hupd]
    have hdecfalse : decide (longestRecorded (applyStreakResult today cs sd store nid).1 < cs)
        = false := by
      rw [decide_eq_false_iff_not]
      omega
    rw [hdecfalse]
    cases a1 with
    | mk i s e ln act pr =>
      simp only [StreakRec.mk.injEq] at h1sd h1len h1prf ⊢
      simp_all
  · intro hcs0
    subst hcs0
    have hnone : activeStreak (applyStreakResult today 0 sd store nid).1 = none :=
      applyStreakResult_zero_none today sd store nid hnodup hcount
    rw [hstep, hstep]
    exact applyStreakResult_zero_of_no_active today sd _ _ hnone

/-- Witness for C2's amended statement at the concrete scenario of the
counterexample. -/
theorem c2_amended_second_call_witness :
    (0 < 1 → ∃ a1 a2,
      activeStreak (updateStreaks 50 c2Habit c2Entries 0 ([], 0)).1 = some a1 ∧
      activeStreak (updateStreaks 50 c2Habit c2Entries 0
        (updateStreaks 50 c2Habit c2Entries 0 ([], 0))).1 = some a2 ∧
      a2.startDate = a1.startDate ∧ a2.length = a1.length ∧ a1.length = 1 ∧
      a2.isActive = a1.isActive ∧ a2.isPersonalRecord = false ∧
      (a1.isPersonalRecord = false → a2 = a1)) ∧
    (1 = 0 → updateStreaks 50 c2Habit c2Entries 0
        (updateStreaks 50 c2Habit c2Entries 0 ([], 0))
      = updateStreaks 50 c2Habit c2Entries 0 ([], 0)) :=
  c2_amended_second_call c2Habit c2Entries 0 [] 0 50 1 0
    ⟨by decide, by decide, by decide⟩ (by decide) (by decide)

theorem deactivateRec_id (today : Int) (aid : Nat) (s : StreakRec) :
    (deactivateRec today aid s).id = s.id := by
  unfold deactivateRec
  by_cases hx : s.id = aid <;> simp [hx]

theorem countActive_applyStreakResult (today : Int) (cs : Nat) (sd : Int)
    (store : List StreakRec) (nid : Nat)
    (hcount : countActive store ≤ 1) :
    countActive (applyStreakResult today cs sd store nid).1 ≤ 1 := by
  unfold applyStreakResult
  by_cases hcs : 0 < cs
  · rw [if_pos hcs]
    cases hfind : activeStreak store with
    | some a =>
      simp only
      unfold countActive at hcount ⊢
      rw [List.countP_map]
      rw [List.countP_congr (q := (·.isActive)) (fun x _ => by
        rw [Function.comp_apply, upsertActive_isActive])]
      exact hcount
    | none =>
      simp only
      unfold countActive
      rw [List.countP_append]
      have h0 : store.countP (·.isActive) = 0 := by
        rw [List.countP_eq_zero]
        intro x hx
        exact List.find?_eq_none.1 hfind x hx
      rw [h0]
      simp
  · rw [if_neg hcs]
    cases hfind : activeStreak store with
    | some a =>
      simp only
      unfold countActive at hcount ⊢
      rw [List.countP_map]
      refine le_trans (List.countP_mono_left (fun x _ hx => ?_)) hcount
      rw [Function.comp_apply] at hx
      unfold deactivateRec at hx
      by_cases hxa : x.id = a.id
      · rw [if_pos hxa] at hx
        simp at hx
      · rw [if_neg hxa] at hx
        exact hx
    | none => exact hcount

theorem storeOk_applyStreakResult (today : Int) (cs : Nat) (sd : Int)
    (store : List StreakRec) (nid : Nat) (hok : StoreOk store nid) :
    StoreOk (applyStreakResult today cs sd store nid).1
      (applyStreakResult today cs sd store nid).2 := by
  obtain ⟨hnodup, hcount, hfresh⟩ := hok
  by_cases hcs : 0 < cs
  · obtain ⟨a2, -, -, -, -, -, -, hnodup', hfresh', -⟩ :=
      applyStreakResult_pos_spec today cs sd store nid hcs hnodup hfresh
    exact ⟨hnodup', countActive_applyStreakResult today cs sd store nid hcount, hfresh'⟩
  · have hcs0 : cs = 0 := by omega
    subst hcs0
    refine ⟨?_, countActive_applyStreakResult today 0 sd store nid hcount, ?_⟩
    · unfold applyStreakResult
      rw [if_neg (lt_irrefl 0)]
      cases hfind : activeStreak store with
      | none => exact hnodup
      | some a =>
        simp only
        rw [List.map_map]
        have hmc : List.map ((fun x => x.id) ∘ deactivateRec today a.id) store
            = List.map (fun x => x.id) store :=
          List.map_congr_left (fun x _ => deactivateRec_id today a.id x)
        rw [hmc]
        exact hnodup
    · unfold applyStreakResult
      rw [if_neg (lt_irrefl 0)]
      cases hfind : activeStreak store with
      | none => exact hfresh
      | some a =>
        simp only
        intro r hr
        obtain ⟨z, hz, rfl⟩ := List.mem_map.1 hr
        rw [deactivateRec_id]
        exact hfresh z hz

theorem storeOk_updateStreaks (fuel : Nat) (h : Habit) (entries : List HabitEntry)
    (today : Int) (st : List StreakRec × Nat) (hok : StoreOk st.1 st.2) :
    StoreOk (updateStreaks fuel h entries today st).1
      (updateStreaks fuel h entries today st).2 := by
  unfold updateStreaks
  by_cases he : entries.isEmpty
  · rw [if_pos he]
    exact hok
  · rw [if_neg he]
    cases hw : streakWalk h (entries.insertionSort dateLe) today fuel today 0 today with
    | none => exact hok
    | some p =>
      obtain ⟨cs, sd⟩ := p
      exact storeOk_applyStreakResult today cs sd st.1 st.2 hok

/-- The streak-store part of the state is well formed. -/
def StOk (st : St) : Prop := StoreOk st.streaks st.nextStreakId

theorem stOk_stepOp (fuel : Nat) (h : Habit) (today : Int) (st : St) (op : Op)
    (hok : StOk st) : StOk (stepOp fuel h today st op) := by
  cases op with
  | create date value isAttempt =>
    simp only [stepOp, createEntryF]
    cases isAttempt with
    | true =>
      rw [if_pos rfl]
      exact storeOk_updateStreaks fuel h _ today (st.streaks, st.nextStreakId) hok
    | false =>
      rw [if_neg (by simp)]
      cases hget : getEntryF st.entries date with
      | some existing =>
        simp only
        by_cases hex : existing.isAttempt = false
        · rw [if_pos hex]
          exact hok
        · rw [if_neg hex]
          exact storeOk_updateStreaks fuel h _ today (st.streaks, st.nextStreakId) hok
      | none =>
        simp only
        exact storeOk_updateStreaks fuel h _ today (st.streaks, st.nextStreakId) hok
  | delete date =>
    simp only [stepOp, deleteEntryF]
    cases hget : getEntryF st.entries date with
    | some entry =>
      simp only
      exact storeOk_updateStreaks fuel h _ today (st.streaks, st.nextStreakId) hok
    | none =>
      simp only
      exact hok
  | recompute =>
    simp only [stepOp]
    exact storeOk_updateStreaks fuel h _ today (st.streaks, st.nextStreakId) hok

theorem stOk_runOps (fuel : Nat) (h : Habit) (today : Int) :
    ∀ (ops : List Op) (st : St), StOk st → StOk (runOps fuel h today st ops) := by
  intro ops
  induction ops with
  | nil => intro st hok; exact hok
  | cons op rest ih =>
    intro st hok
    exact ih _ (stOk_stepOp fuel h today st op hok)

/-- **C9**: starting from a state with no streak records, every sequence
of entry mutations (`createEntry`, `deleteEntry`) and `updateStreaks`
calls leaves at most one streak record with `isActive = true` for the
habit. -/
theorem c9_at_most_one_active (fuel : Nat) (h : Habit) (today : Int)
    (entries0 : List HabitEntry) (eid now : Nat) (ops : List Op) :
    countActive (runOps fuel h today ⟨entries0, [], eid, 0, now⟩ ops).streaks ≤ 1 :=
  (stOk_runOps fuel h today ops ⟨entries0, [], eid, 0, now⟩
    ⟨List.nodup_nil, by simp [countActive], fun r hr => absurd hr (List.not_mem_nil r)⟩).2.1

/-! ## Forecast gating (C8) -/

theorem slopeFavors_abs_ne_zero (dir : Direction) (s : Rat)
    (h : slopeFavors dir s) : ¬ |s| = 0 := by
  intro h0
  rw [abs_eq_zero] at h0
  subst h0
  cases dir with
  | maximize => exact lt_irrefl 0 h
  | minimize => exact lt_irrefl 0 h

/-- **C8**: `estimateReachDate` yields an absent forecast (and never
throws — the embedding is a total function whose only outputs are `none`
and a date) precisely under the claimed conditions: fewer than 7 total
entries, fewer than 7 entries in the trailing 30-day window, a regression
slope that does not favor the direction, a zero daily improvement (which
the direction gate already subsumes), or a projected horizon beyond 180
days; otherwise it returns `today + daysToTarget`. -/
theorem c8_forecast_gating (entries : List HabitEntry) (cur tgt : Rat)
    (dir : Direction) (today : Int) :
    ((entries.length < 7 ∨ (recentWindow entries today).length < 7 ∨
      ¬ slopeFavors dir (slopeOf (recentWindow entries today)) ∨
      |slopeOf (recentWindow entries today)| = 0 ∨
      180 < daysToTarget cur tgt (slopeOf (recentWindow entries today))) →
      estimateReachDate entries cur tgt dir today = none) ∧
    (¬ (entries.length < 7 ∨ (recentWindow entries today).length < 7 ∨
      ¬ slopeFavors dir (slopeOf (recentWindow entries today)) ∨
      |slopeOf (recentWindow entries today)| = 0 ∨
      180 < daysToTarget cur tgt (slopeOf (recentWindow entries today))) →
      estimateReachDate entries cur tgt dir today
        = some (today + daysToTarget cur tgt (slopeOf (recentWindow entries today)))) := by
  simp only [estimateReachDate]
  by_cases h1 : entries.length < 7
  · rw [if_pos h1]
    exact ⟨fun _ => rfl, fun hc => absurd (Or.inl h1) hc⟩
  · rw [if_neg h1]
    by_cases h2 : (recentWindow entries today).length < 7
    · rw [if_pos h2]
      exact ⟨fun _ => rfl, fun hc => absurd (Or.inr (Or.inl h2)) hc⟩
    · rw [if_neg h2]
      by_cases h3 : slopeFavors dir (slopeOf (recentWindow entries today))
      · rw [if_neg (not_not_intro h3)]
        rw [if_neg (slopeFavors_abs_ne_zero dir _ h3)]
        by_cases h5 : 180 < daysToTarget cur tgt (slopeOf (recentWindow entries today))
        · rw [if_pos h5]
          exact ⟨fun _ => rfl,
                 fun hc => absurd (Or.inr (Or.inr (Or.inr (Or.inr h5)))) hc⟩
        · rw [if_neg h5]
          refine ⟨fun hc => ?_, fun _ => rfl⟩
          rcases hc with hc | hc | hc | hc | hc
          · exact absurd hc h1
          · exact absurd hc h2
          · exact absurd h3 hc
          · exact absurd hc (slopeFavors_abs_ne_zero dir _ h3)
          · exact absurd hc h5
      · rw [if_pos h3]
        exact ⟨fun _ => rfl, fun hc => absurd (Or.inr (Or.inr (Or.inl h3))) hc⟩

/-- Witness for C8: with no entries the forecast is absent. -/
theorem c8_forecast_gating_witness :
    estimateReachDate [] 0 0 Direction.maximize 0 = none :=
  (c8_forecast_gating [] 0 0 Direction.maximize 0).1 (Or.inl (by decide))

/-! ## Boolean race field (C7) -/

theorem boolPositions_length (cs : Nat) :
    ∀ (i : Nat) (l : List Nat), (boolPositions cs i l).length = l.length := by
  intro i l
  induction l generalizing i with
  | nil => rfl
  | cons v vs ih => simp [boolPositions, ih]

theorem boolPositions_map_value (cs : Nat) :
    ∀ (i : Nat) (l : List Nat),
      (boolPositions cs i l).map (·.value) = l.map (fun n => (n : Rat)) := by
  intro i l
  induction l generalizing i with
  | nil => rfl
  | cons v vs ih => simp [boolPositions, ih]

theorem boolPositions_pr_iff_first (cs : Nat) :
    ∀ (i : Nat) (l : List Nat) (p : RacePosition), p ∈ boolPositions cs i l →
      (p.isPersonalRecord = true ↔ p.position = 1) := by
  intro i l
  induction l generalizing i with
  | nil => intro p hp; simp [boolPositions] at hp
  | cons v vs ih =>
    intro p hp
    simp only [boolPositions, List.mem_cons] at hp
    rcases hp with rfl | hp
    · simp only [decide_eq_true_eq]
      omega
    · exact ih (i + 1) p hp

/-- The boolean habit of the C7 example scenario. -/
def c7Habit : Habit := ⟨.boolean, .maximize, .daily, none⟩

/-- The C7 example entry history: a 5-day completed run, one value-0 day
(the gap is recorded as an un-completed entry — the scan only visits
recorded entries, so only a value other than 1 resets the counter), then
a 3-day completed run. -/
def c7Entries : List HabitEntry :=
  [⟨0, 0, 1, 0, 0, false⟩, ⟨1, 1, 1, 1, 1, false⟩, ⟨2, 2, 1, 2, 2, false⟩,
   ⟨3, 3, 1, 3, 3, false⟩, ⟨4, 4, 1, 4, 4, false⟩, ⟨5, 5, 0, 5, 5, false⟩,
   ⟨6, 6, 1, 6, 6, false⟩, ⟨7, 7, 1, 7, 7, false⟩, ⟨8, 8, 1, 8, 8, false⟩]

/-- **C7**: for a boolean habit the race field is the collection of
distinct running-streak lengths reached while scanning the date-sorted
entries (counter incremented on `value === 1`, reset otherwise), sorted
descending, de-duplicated and truncated to 10, with position 1 (and only
position 1) flagged as the personal record; on the example 5-run / gap /
3-run history the positions carry values `[5,4,3,2,1]` with the PR flag
on position 1. -/
theorem c7_boolean_race_field (h : Habit) (entries : List HabitEntry)
    (store : List StreakRec) (today : Int) (hb : h.type = .boolean) :
    (raceDataCore h entries store today).positions.map (·.value)
      = (((scanStreakLengths 0 (entries.insertionSort dateLe)).dedup.insertionSort
          natGe).take 10).map (fun n => (n : Rat)) ∧
    (∀ p ∈ (raceDataCore h entries store today).positions,
      (p.isPersonalRecord = true ↔ p.position = 1)) ∧
    List.Sorted natGe
      (((scanStreakLengths 0 (entries.insertionSort dateLe)).dedup.insertionSort
        natGe).take 10) ∧
    (((scanStreakLengths 0 (entries.insertionSort dateLe)).dedup.insertionSort
      natGe).take 10).Nodup ∧
    (raceDataCore c7Habit c7Entries [] 8).positions.map
        (fun p => (p.value, p.isPersonalRecord, p.position))
      = [((5 : Rat), true, 1), (4, false, 2), (3, false, 3), (2, false, 4),
         (1, false, 5)] := by
  obtain ⟨ht, dir, fr, sd⟩ := h
  cases hb
  have hlen10 : (((scanStreakLengths 0 (entries.insertionSort dateLe)).dedup.insertionSort
      natGe).take 10).length ≤ 10 := by
    exact le_trans (List.length_take_le 10 _) le_rfl
  have hpos : (raceDataCore ⟨.boolean, dir, fr, sd⟩ entries store today).positions
      = boolPositions (getCurrentStreak store) 0
        (((scanStreakLengths 0 (entries.insertionSort dateLe)).dedup.insertionSort
          natGe).take 10) := by
    show (boolPositions (getCurrentStreak store) 0 _).take 10 = _
    refine List.take_of_length_le ?_
    rw [boolPositions_length]
    exact hlen10
  refine ⟨?_, ?_, ?_, ?_, by decide⟩
  · rw [hpos, boolPositions_map_value]
  · rw [hpos]
    exact boolPositions_pr_iff_first (getCurrentStreak store) 0 _
  · exact List.Pairwise.sublist (List.take_sublist _ _)
      (List.sorted_insertionSort natGe _)
  · refine List.Nodup.sublist (List.take_sublist _ _) ?_
    exact ((List.perm_insertionSort natGe _).nodup_iff).2 (List.nodup_dedup _)

/-- Witness for C7 at the example scenario. -/
theorem c7_boolean_race_field_witness :
    (raceDataCore c7Habit c7Entries [] 8).positions.map (·.value)
      = (((scanStreakLengths 0 (c7Entries.insertionSort dateLe)).dedup.insertionSort
          natGe).take 10).map (fun n => (n : Rat)) ∧
    (∀ p ∈ (raceDataCore c7Habit c7Entries [] 8).positions,
      (p.isPersonalRecord = true ↔ p.position = 1)) ∧
    List.Sorted natGe
      (((scanStreakLengths 0 (c7Entries.insertionSort dateLe)).dedup.insertionSort
        natGe).take 10) ∧
    (((scanStreakLengths 0 (c7Entries.insertionSort dateLe)).dedup.insertionSort
      natGe).take 10).Nodup ∧
    (raceDataCore c7Habit c7Entries [] 8).positions.map
        (fun p => (p.value, p.isPersonalRecord, p.position))
      = [((5 : Rat), true, 1), (4, false, 2), (3, false, 3), (2, false, 4),
         (1, false, 5)] :=
  c7_boolean_race_field c7Habit c7Entries [] 8 rfl

/-! ## Quantifiable race field and the personal-record flag (C6) -/

theorem entryOrder_refl (dir : Direction) (e : HabitEntry) : entryOrder dir e e := by
  cases dir <;> exact le_refl _

theorem dedupByIdAux_mem {e : HabitEntry} :
    ∀ (seen : List Nat) (l : List HabitEntry), e ∈ dedupByIdAux seen l → e ∈ l := by
  intro seen l
  induction l generalizing seen with
  | nil => intro h; simp [dedupByIdAux] at h
  | cons x xs ih =>
    intro h
    simp only [dedupByIdAux] at h
    by_cases hx : x.id ∈ seen
    · rw [if_pos hx] at h
      exact List.mem_cons_of_mem x (ih seen h)
    · rw [if_neg hx] at h
      rcases List.mem_cons.1 h with rfl | h'
      · exact List.mem_cons_self e xs
      · exact List.mem_cons_of_mem x (ih (x.id :: seen) h')

theorem dedupByIdAux_id_nodup :
    ∀ (seen : List Nat) (l : List HabitEntry),
      ((dedupByIdAux seen l).map (·.id)).Nodup ∧
      ∀ e ∈ dedupByIdAux seen l, e.id ∉ seen := by
  intro seen l
  induction l generalizing seen with
  | nil => exact ⟨List.nodup_nil, by simp [dedupByIdAux]⟩
  | cons x xs ih =>
    by_cases hx : x.id ∈ seen
    · simp only [dedupByIdAux, if_pos hx]
      exact ih seen
    · simp only [dedupByIdAux, if_neg hx, List.map_cons]
      obtain ⟨hnd, hseen⟩ := ih (x.id :: seen)
      refine ⟨List.nodup_cons.2 ⟨?_, hnd⟩, ?_⟩
      · intro hmem
        obtain ⟨z, hz, hzx⟩ := List.mem_map.1 hmem
        exact hseen z hz (hzx ▸ List.mem_cons_self x.id seen)
      · intro e he
        rcases List.mem_cons.1 he with rfl | he'
        · exact hx
        · exact fun hcon => hseen e he' (List.mem_cons_of_mem _ hcon)

theorem dedupByIdAux_length_le :
    ∀ (seen : List Nat) (l : List HabitEntry),
      (dedupByIdAux seen l).length ≤ l.length := by
  intro seen l
  induction l generalizing seen with
  | nil => exact le_rfl
  | cons x xs ih =>
    simp only [dedupByIdAux]
    by_cases hx : x.id ∈ seen
    · rw [if_pos hx]
      exact le_trans (ih seen) (Nat.le_succ _)
    · rw [if_neg hx]
      simpa using ih (x.id :: seen)

theorem filter_id_singleton {l : List HabitEntry} {b : HabitEntry}
    (hnodup : (l.map (·.id)).Nodup) (hmem : b ∈ l) :
    l.filter (fun e => decide (b.id = e.id)) = [b] := by
  induction l with
  | nil => cases hmem
  | cons x xs ih =>
    simp only [List.map_cons, List.nodup_cons] at hnodup
    rcases List.mem_cons.1 hmem with rfl | hmem'
    · rw [List.filter_cons_of_pos (by simp)]
      have hnil : xs.filter (fun e => decide (b.id = e.id)) = [] := by
        rw [List.filter_eq_nil_iff]
        intro e he hpe
        simp only [decide_eq_true_eq] at hpe
        exact hnodup.1 (hpe ▸ List.mem_map_of_mem (·.id) he)
      rw [hnil]
    · have hxb : ¬ (b.id = x.id) := by
        intro hcon
        exact hnodup.1 (hcon ▸ List.mem_map_of_mem (·.id) hmem')
      rw [List.filter_cons_of_neg (by simp [hxb])]
      exact ih hnodup.2 hmem'

theorem quantPositions_length (prId? curId? : Option Nat) :
    ∀ (i : Nat) (l : List HabitEntry),
      (quantPositions prId? curId? i l).length = l.length := by
  intro i l
  induction l generalizing i with
  | nil => rfl
  | cons e es ih => simp [quantPositions, ih]

theorem quantPositions_filter_pr_nil (prId : Nat) (curId? : Option Nat) :
    ∀ (i : Nat) (l : List HabitEntry),
      l.filter (fun e => decide (prId = e.id)) = [] →
      (quantPositions (some prId) curId? i l).filter (·.isPersonalRecord) = [] := by
  intro i l
  induction l generalizing i with
  | nil => intro _; rfl
  | cons e es ih =>
    intro hfil
    by_cases hpe : prId = e.id
    · rw [List.filter_cons_of_pos (by simp [hpe])] at hfil
      cases hfil
    · rw [List.filter_cons_of_neg (by simp [hpe])] at hfil
      simp only [quantPositions]
      rw [List.filter_cons_of_neg (by simp [hpe])]
      exact ih (i + 1) hfil

theorem quantPositions_filter_pr (prId : Nat) (curId? : Option Nat) (b : HabitEntry) :
    ∀ (i : Nat) (l : List HabitEntry),
      l.filter (fun e => decide (prId = e.id)) = [b] →
      ∃ k, (quantPositions (some prId) curId? i l).filter (·.isPersonalRecord)
        = [⟨b.value, some b.date, true, decide (curId? = some b.id), k⟩] := by
  intro i l
  induction l generalizing i with
  | nil => intro h; cases h
  | cons e es ih =>
    intro hfil
    by_cases hpe : prId = e.id
    · rw [List.filter_cons_of_pos (by simp [hpe])] at hfil
      rw [List.cons_eq_cons] at hfil
      obtain ⟨rfl, hnil⟩ := hfil
      refine ⟨i + 1, ?_⟩
      simp only [quantPositions]
      rw [List.filter_cons_of_pos (by simp [hpe])]
      rw [quantPositions_filter_pr_nil prId curId? (i + 1) es hnil]
      simp [hpe]
    · rw [List.filter_cons_of_neg (by simp [hpe])] at hfil
      simp only [quantPositions]
      rw [List.filter_cons_of_neg (by simp [hpe])]
      exact ih (i + 1) hfil

theorem quantRaceEntries_spec (dir : Direction) (entries : List HabitEntry)
    (best : HabitEntry) (tail : List HabitEntry)
    (hcons : entries.insertionSort (entryOrder dir) = best :: tail) :
    best ∈ quantRaceEntries dir entries ∧
    ((quantRaceEntries dir entries).map (·.id)).Nodup ∧
    (quantRaceEntries dir entries).length ≤ 10 := by
  have hlen1 : 1 ≤ entries.length := by
    have := List.length_insertionSort (entryOrder dir) entries
    rw [hcons] at this
    simp only [List.length_cons] at this
    omega
  have hbs1 : 1 ≤ bestSlotCount (min entries.length 10) := by
    have ht : 1 ≤ min entries.length 10 := by omega
    unfold bestSlotCount
    omega
  have hbst : bestSlotCount (min entries.length 10) ≤ min entries.length 10 := by
    unfold bestSlotCount
    omega
  obtain ⟨bs', hbs'⟩ : ∃ bs', bestSlotCount (min entries.length 10) = bs' + 1 :=
    ⟨bestSlotCount (min entries.length 10) - 1, by omega⟩
  have hhead : (entries.insertionSort (entryOrder dir)).take
        (bestSlotCount (min entries.length 10))
      = best :: tail.take bs' := by
    rw [hcons, hbs', List.take_succ_cons]
  have hperm := List.perm_insertionSort (entryOrder dir)
    (dedupById ((entries.insertionSort (entryOrder dir)).take
        (bestSlotCount (min entries.length 10)) ++
      (((entries.insertionSort createdGe).filter (fun e =>
        ¬ ((entries.insertionSort (entryOrder dir)).take
            (bestSlotCount (min entries.length 10))).any (fun b => b.id = e.id))).take
        (min entries.length 10 - bestSlotCount (min entries.length 10)))))
  refine ⟨?_, ?_, ?_⟩
  · show best ∈ (dedupById _).insertionSort (entryOrder dir)
    rw [List.mem_insertionSort]
    rw [hhead]
    show best ∈ dedupByIdAux [] (best :: _)
    simp only [dedupByIdAux, List.not_mem_nil, if_neg]
    exact List.mem_cons_self best _
  · show ((dedupById _).insertionSort (entryOrder dir)).map (·.id) |>.Nodup
    refine ((hperm.map (·.id)).nodup_iff).2 ?_
    exact (dedupByIdAux_id_nodup [] _).1
  · show ((dedupById _).insertionSort (entryOrder dir)).length ≤ 10
    rw [List.length_insertionSort]
    refine le_trans (dedupByIdAux_length_le [] _) ?_
    rw [List.length_append]
    have h1 := List.length_take_le (bestSlotCount (min entries.length 10))
      (entries.insertionSort (entryOrder dir))
    have h2 := List.length_take_le (min entries.length 10 -
      bestSlotCount (min entries.length 10))
      ((entries.insertionSort createdGe).filter (fun e =>
        ¬ ((entries.insertionSort (entryOrder dir)).take
            (bestSlotCount (min entries.length 10))).any (fun b => b.id = e.id)))
    omega

/-- **C6**: for a quantifiable habit with a non-empty entry list, the
head of the full value-sorted list — the globally best entry under the habit's
direction — appears among the displayed race positions and is the unique
position flagged `isPersonalRecord`, despite the 75%/25% best/recent
curation: the displayed positions flagged as personal record are exactly
one position carrying the best entry's value and date. -/
theorem c6_pr_flag_on_best (h : Habit) (entries : List HabitEntry)
    (store : List StreakRec) (today : Int) (hq : h.type = .quantifiable)
    (hne : entries ≠ []) :
    ∃ best, (entries.insertionSort (entryOrder h.direction)).head? = some best ∧
      best ∈ entries ∧
      (∀ e ∈ entries, entryOrder h.direction best e) ∧
      ∃ k c, (raceDataCore h entries store today).positions.filter (·.isPersonalRecord)
        = [⟨best.value, some best.date, true, c, k⟩] := by
  obtain ⟨ht, dir, fr, sd⟩ := h
  cases hq
  have hsne : entries.insertionSort (entryOrder dir) ≠ [] := by
    intro hnil
    have := List.length_insertionSort (entryOrder dir) entries
    rw [hnil] at this
    simp only [List.length_nil] at this
    exact hne (List.eq_nil_of_length_eq_zero this.symm)
  obtain ⟨best, tail, hcons⟩ := List.exists_cons_of_ne_nil hsne
  obtain ⟨hmem, hnodupRace, hlen10⟩ := quantRaceEntries_spec dir entries best tail hcons
  have hsorted := List.sorted_insertionSort (entryOrder dir) entries
  rw [hcons] at hsorted
  refine ⟨best, by rw [hcons]; rfl, ?_, ?_, ?_⟩
  · exact (List.mem_insertionSort _).1 (hcons ▸ List.mem_cons_self best tail)
  · intro e he
    have : e ∈ best :: tail := by
      rw [← hcons, List.mem_insertionSort]
      exact he
    rcases List.mem_cons.1 this with rfl | htail
    · exact entryOrder_refl dir e
    · exact List.rel_of_sorted_cons hsorted e htail
  · have hfil : (quantRaceEntries dir entries).filter
        (fun e => decide (best.id = e.id)) = [best] :=
      filter_id_singleton hnodupRace hmem
    obtain ⟨k, hk⟩ := quantPositions_filter_pr best.id
      ((entries.insertionSort createdGe).head?.map (·.id)) best 0
      (quantRaceEntries dir entries) hfil
    refine ⟨k, decide ((entries.insertionSort createdGe).head?.map (·.id)
      = some best.id), ?_⟩
    have hpos : (raceDataCore ⟨.quantifiable, dir, fr, sd⟩ entries store today).positions
        = quantPositions ((entries.insertionSort (entryOrder dir)).head?.map (·.id))
            ((entries.insertionSort createdGe).head?.map (·.id)) 0
            (quantRaceEntries dir entries) := by
      show (quantPositions _ _ 0 (quantRaceEntries dir entries)).take 10 = _
      refine List.take_of_length_le ?_
      rw [quantPositions_length]
      exact hlen10
    rw [hpos, hcons]
    exact hk

/-- The quantifiable habit of the spec's worked example (maximize). -/
def c6Habit : Habit := ⟨.quantifiable, .maximize, .daily, none⟩

/-- Entries 10, 15, 12 on three consecutive days (the spec's worked
example). -/
def c6Entries : List HabitEntry :=
  [⟨0, 0, 10, 0, 0, false⟩, ⟨1, 1, 15, 1, 1, false⟩, ⟨2, 2, 12, 2, 2, false⟩]

/-- Witness for C6 at the spec's worked example. -/
theorem c6_pr_flag_on_best_witness :
    ∃ best, (c6Entries.insertionSort (entryOrder c6Habit.direction)).head? = some best ∧
      best ∈ c6Entries ∧
      (∀ e ∈ c6Entries, entryOrder c6Habit.direction best e) ∧
      ∃ k c, (raceDataCore c6Habit c6Entries [] 2).positions.filter (·.isPersonalRecord)
        = [⟨best.value, some best.date, true, c, k⟩] :=
  c6_pr_flag_on_best c6Habit c6Entries [] 2 rfl (by decide)

/-! ## Quick check-in (C10) -/

theorem find?_eq_head?_filter {α : Type} (p : α → Bool) :
    ∀ l : List α, l.find? p = (l.filter p).head? := by
  intro l
  induction l with
  | nil => rfl
  | cons x xs ih =>
    by_cases hx : p x = true
    · rw [List.find?_cons_of_pos _ hx, List.filter_cons_of_pos hx]
      rfl
    · rw [List.find?_cons_of_neg _ hx, List.filter_cons_of_neg hx]
      exact ih

theorem filter_map_comm {α : Type} (f : α → α) (p : α → Bool)
    (hp : ∀ x, p (f x) = p x) :
    ∀ l : List α, (l.map f).filter p = (l.filter p).map f := by
  intro l
  induction l with
  | nil => rfl
  | cons x xs ih =>
    rw [List.map_cons]
    by_cases hx : p x = true
    · rw [List.filter_cons_of_pos (by rw [hp]; exact hx),
          List.filter_cons_of_pos hx, List.map_cons, ih]
    · rw [List.filter_cons_of_neg (by rw [hp]; exact hx),
          List.filter_cons_of_neg hx, ih]

/-- The boolean habit of the C10 scenarios. -/
def c10Habit : Habit := ⟨.boolean, .maximize, .daily, none⟩

/-- The C10 counterexample state: for today (day 0) the habit has an
attempt entry with value 1 created first, and a non-attempt entry with
value 0 created later. -/
def c10State : St :=
  ⟨[⟨0, 0, 1, 0, 0, true⟩, ⟨1, 0, 0, 1, 1, false⟩], [], 2, 0, 2⟩

/-- **C10** (counterexample): the habit's non-attempt entry for today has
value 0, so the claim says `quickCheckIn` records value 1 for today.  But
`getEntry` returns the *first* entry for today in primary-key order — the
attempt entry with value 1 — so the toggle computes `newValue = 0`, and
`createEntry` (seeing the attempt entry) creates a *new* duplicate
non-attempt entry with value 0: afterwards no non-attempt entry for today
has value 1. -/
theorem c10_counterexample :
    (quickCheckInF 50 c10Habit 0 c10State).entries.map
        (fun e => (e.id, e.date, e.value, e.isAttempt))
      = [(0, 0, (1 : Rat), true), (1, 0, 0, false), (2, 0, 0, false)] ∧
    ¬ ∃ e ∈ (quickCheckInF 50 c10Habit 0 c10State).entries,
        e.value = 1 ∧ e.isAttempt = false := by decide

/-- **C10** (amended): *provided the habit has at most one entry for
today and it is not an attempt entry*, `quickCheckIn` leaves exactly one
non-attempt entry for today, whose value is 0 when the existing entry's
value was 1 (a second check-in un-completes the day) and 1 in every
other case (no entry yet, or value ≠ 1). -/
theorem c10_amended_toggle (h : Habit) (today : Int) (st : St) (fuel : Nat)
    (hone : (st.entries.filter (fun e => e.date = today)).length ≤ 1)
    (hnoatt : ∀ e ∈ st.entries, e.date = today → e.isAttempt = false) :
    ((quickCheckInF fuel h today st).entries.filter (fun e => e.date = today)).map
        (fun e => (e.value, e.isAttempt))
      = [((match getEntryF st.entries today with
           | some e => if e.value = 1 then (0 : Rat) else 1
           | none => 1), false)] := by
  have hfind : getEntryF st.entries today
      = (st.entries.filter (fun e => decide (e.date = today))).head? :=
    find?_eq_head?_filter _ st.entries
  cases hfil : st.entries.filter (fun e => decide (e.date = today)) with
  | nil =>
    have hget : getEntryF st.entries today = none := by
      rw [hfind, hfil]
      rfl
    simp only [quickCheckInF, createEntryF, hget]
    rw [if_neg (by simp)]
    simp only [hget]
    rw [List.filter_append, hfil,
        List.filter_cons_of_pos (by simp), List.filter_nil]
    rfl
  | cons e rest =>
    have hrest : rest = [] := by
      have := hone
      rw [hfil] at this
      simp only [List.length_cons] at this
      exact List.eq_nil_of_length_eq_zero (by omega)
    subst hrest
    have hget : getEntryF st.entries today = some e := by
      rw [hfind, hfil]
      rfl
    have hmemp : e ∈ st.entries ∧ decide (e.date = today) = true := by
      have : e ∈ st.entries.filter (fun e => decide (e.date = today)) := by
        rw [hfil]
        exact List.mem_cons_self e []
      exact List.mem_filter.1 this
    have hatt : e.isAttempt = false :=
      hnoatt e hmemp.1 (by simpa using hmemp.2)
    simp only [quickCheckInF, createEntryF, hget]
    rw [if_neg (by simp)]
    simp only [hget, hatt]
    rw [if_pos trivial]
    simp only
    rw [filter_map_comm _ _ (fun x => by
      by_cases hx : x.id = e.id <;> simp [hx]), hfil]
    simp [hatt]

/-- The C10 toggle scenario: one non-attempt value-1 entry for today. -/
def c10ToggleState : St := ⟨[⟨0, 0, 1, 0, 0, false⟩], [], 1, 0, 1⟩

/-- Witness for C10's amended statement: a completed day is un-completed
(value 0) by a second check-in. -/
theorem c10_amended_toggle_witness :
    ((quickCheckInF 50 c10Habit 0 c10ToggleState).entries.filter
        (fun e => e.date = 0)).map (fun e => (e.value, e.isAttempt))
      = [((match getEntryF c10ToggleState.entries 0 with
           | some e => if e.value = 1 then (0 : Rat) else 1
           | none => 1), false)] :=
  c10_amended_toggle c10Habit 0 c10ToggleState 50 (by decide) (by decide)

end HabitRacer
